import Mathlib

/-!
# Verification of the hybrid trend + grid trading bot

A shallow embedding of the core of the `trading-bot` repository:
`modules/hybrid_strategy.py` (market-state classification, grid sizing,
signal generation, FIFO position ledger) and `modules/backtest_engine.py`
(bar loop, cash bookkeeping, forced end-of-run close, result statistics).

Python floats are modelled as rationals (`ℚ`), so all arithmetic is exact;
the claims under study are algebraic and do not concern rounding.
Configuration constants (`GRID_CONFIG`, `BACKTEST_CONFIG`, `RISK_CONFIG`),
which live in a `config.py` outside the analysed sources, are passed as
explicit parameters.  Human-readable `reason` strings are kept as `String`
fields but their exact wording (formatted Chinese text in the source) is
abbreviated; no property depends on it.
-/

namespace TradingBot

/-- Market regime, from `hybrid_strategy.MarketState`. -/
inductive MarketState
  | BULL
  | BEAR
  | RANGE
deriving DecidableEq, Repr

/-- Signal side, from `hybrid_strategy.OrderSide`. -/
inductive OrderSide
  | BUY
  | SELL
deriving DecidableEq, Repr

/-- One open lot, from `hybrid_strategy.Position`. -/
structure Position where
  entry_price : ℚ
  amount : ℚ
  entry_time : String := ""
deriving DecidableEq, Repr

/-- A per-bar trading intent, from `hybrid_strategy.TradeSignal`. -/
structure TradeSignal where
  side : OrderSide
  price : ℚ
  amount : ℚ
  reason : String := ""
  timestamp : String := ""
deriving DecidableEq, Repr

/-- The mutable fields of `HybridStrategy` (its `__init__`). -/
structure StrategyState where
  positions : List Position
  grid_center : ℚ
  last_buy_price : ℚ
  last_sell_price : ℚ
  total_position : ℚ
  total_cost : ℚ
deriving DecidableEq, Repr

/-- The fields of `GRID_CONFIG` that the strategy reads. -/
structure GridConfig where
  min_grid_size : ℚ
  max_grid_size : ℚ
  order_amount : ℚ
deriving DecidableEq, Repr

/-- `HybridStrategy.__init__`: everything starts at zero / empty. -/
def StrategyState.init : StrategyState :=
  { positions := [], grid_center := 0, last_buy_price := 0,
    last_sell_price := 0, total_position := 0, total_cost := 0 }

/-- `HybridStrategy.detect_market_state`: BULL when price above the trend
EMA with fast above slow, BEAR when the mirror image holds, RANGE
otherwise. -/
def detect_market_state (price ema_fast ema_slow ema_trend : ℚ) : MarketState :=
  if ema_trend < price ∧ ema_slow < ema_fast then .BULL
  else if price < ema_trend ∧ ema_fast < ema_slow then .BEAR
  else .RANGE

/-- `np.clip(atr_pct * 2.5, min_grid_size, max_grid_size)` as used in
`HybridStrategy.process` (numpy clips below first, then above). -/
def gridSize (cfg : GridConfig) (atr_pct : ℚ) : ℚ :=
  min (max (atr_pct * (5/2)) cfg.min_grid_size) cfg.max_grid_size

/-- The buy decision of `HybridStrategy.process` (lines 98-124): in BULL
and RANGE buy on a missing anchor or a drop of one grid below it; in BEAR
only with a positive anchor and a drop of two grids. -/
def shouldBuy (state : MarketState) (last_buy_price price grid : ℚ) : Bool :=
  match state with
  | .BULL => last_buy_price = 0 ∨ price ≤ last_buy_price * (1 - grid)
  | .RANGE => last_buy_price = 0 ∨ price ≤ last_buy_price * (1 - grid)
  | .BEAR => 0 < last_buy_price ∧ price ≤ last_buy_price * (1 - grid * 2)

/-- The per-lot sell decision of `HybridStrategy.process` (lines 139-168):
take profit at two grids (BULL), one grid (RANGE), half a grid (BEAR);
stop loss at minus three grids (BEAR only). -/
def shouldSell (state : MarketState) (grid price : ℚ) (pos : Position) : Bool :=
  let profit_pct := (price - pos.entry_price) / pos.entry_price
  match state with
  | .BULL => grid * 2 ≤ profit_pct
  | .RANGE => grid ≤ profit_pct
  | .BEAR => grid * (1/2) ≤ profit_pct ∨ profit_pct ≤ -(grid * 3)

/-- `HybridStrategy.process`: at most one BUY signal (order-size amount),
then one SELL signal per qualifying lot, appended in reverse ledger order
(the source collects qualifying indices ascending and iterates them
`reversed`). -/
def process (cfg : GridConfig) (s : StrategyState)
    (price ema_fast ema_slow ema_trend atr_pct : ℚ) (timestamp : String) :
    List TradeSignal :=
  let state := detect_market_state price ema_fast ema_slow ema_trend
  let grid := gridSize cfg atr_pct
  let buySigs : List TradeSignal :=
    if shouldBuy state s.last_buy_price price grid then
      [{ side := .BUY, price := price, amount := cfg.order_amount,
         reason := "buy", timestamp := timestamp }]
    else []
  let sellSigs : List TradeSignal :=
    ((s.positions.filter (shouldSell state grid price)).reverse).map
      (fun pos =>
        { side := .SELL, price := price, amount := pos.amount,
          reason := "sell", timestamp := timestamp })
  buySigs ++ sellSigs

/-- `HybridStrategy.execute_buy`: append a lot at the ledger tail, move
the buy anchor, grow the cumulative amount and cost basis. -/
def execute_buy (s : StrategyState) (price amount : ℚ) (timestamp : String) :
    StrategyState :=
  { s with
    positions := s.positions ++ [{ entry_price := price, amount := amount,
                                   entry_time := timestamp }],
    last_buy_price := price,
    total_position := s.total_position + amount,
    total_cost := s.total_cost + price * amount }

/-- Outcome of the FIFO consumption loop inside `execute_sell`: realized
P&L, total amount consumed, total cost basis consumed, and the surviving
ledger. -/
structure SellResult where
  pnl : ℚ
  soldAmount : ℚ
  soldCost : ℚ
  rest : List Position
deriving DecidableEq, Repr

/-- The `while remaining > 0 and self.positions` loop of
`HybridStrategy.execute_sell`: drain whole lots from the head while their
amount fits in the remaining request, partially reduce the lot that does
not. -/
def sellLoop (price : ℚ) (remaining : ℚ) : List Position → SellResult
  | [] => { pnl := 0, soldAmount := 0, soldCost := 0, rest := [] }
  | pos :: restPs =>
    if 0 < remaining then
      if pos.amount ≤ remaining then
        let r := sellLoop price (remaining - pos.amount) restPs
        { pnl := (price - pos.entry_price) * pos.amount + r.pnl,
          soldAmount := pos.amount + r.soldAmount,
          soldCost := pos.entry_price * pos.amount + r.soldCost,
          rest := r.rest }
      else
        { pnl := (price - pos.entry_price) * remaining,
          soldAmount := remaining,
          soldCost := pos.entry_price * remaining,
          rest := { pos with amount := pos.amount - remaining } :: restPs }
    else
      { pnl := 0, soldAmount := 0, soldCost := 0, rest := pos :: restPs }

/-- `HybridStrategy.execute_sell`: run the FIFO loop, adjust the running
totals, and reset both anchors when the ledger empties (otherwise move the
sell anchor to the executed price).  Returns the realized P&L together
with the new state. -/
def execute_sell (s : StrategyState) (price amount : ℚ) : ℚ × StrategyState :=
  let r := sellLoop price amount s.positions
  (r.pnl,
   { s with
     positions := r.rest,
     total_position := s.total_position - r.soldAmount,
     total_cost := s.total_cost - r.soldCost,
     last_buy_price := if r.rest.isEmpty then 0 else s.last_buy_price,
     last_sell_price := if r.rest.isEmpty then 0 else price })

/-- `HybridStrategy.get_position_value`: cumulative amount times price. -/
def get_position_value (s : StrategyState) (current_price : ℚ) : ℚ :=
  s.total_position * current_price

/-- Sum of the amounts of the lots of a ledger. -/
def totalAmount (l : List Position) : ℚ :=
  (l.map Position.amount).sum

/-- Sum of `entry_price × amount` over the lots of a ledger. -/
def totalCost (l : List Position) : ℚ :=
  (l.map (fun pos => pos.entry_price * pos.amount)).sum

/-! ## Backtest engine (`modules/backtest_engine.py`) -/

/-- The side tag stored on an executed `Trade`.  The source stores the
strings `"BUY"`, `"SELL"` and `"SELL(CLOSE)"`; result statistics select
with the substring test `'SELL' in t.side`, which keeps exactly the last
two. -/
inductive TradeSide
  | BUY
  | SELL
  | SELL_CLOSE
deriving DecidableEq, Repr

/-- `'SELL' in t.side` on the three side strings the engine writes. -/
def TradeSide.isSell : TradeSide → Bool
  | .BUY => false
  | .SELL => true
  | .SELL_CLOSE => true

/-- An executed trade, from `backtest_engine.Trade`. -/
structure Trade where
  timestamp : String
  side : TradeSide
  price : ℚ
  amount : ℚ
  pnl : ℚ := 0
  balance : ℚ := 0
  reason : String := ""
deriving DecidableEq, Repr

/-- One input bar: the columns `_process_bar` reads from a data row. -/
structure Bar where
  date : String
  close : ℚ
  ema_fast : ℚ
  ema_slow : ℚ
  ema_trend : ℚ
  atr_pct : ℚ
deriving DecidableEq, Repr

/-- The configuration the engine reads: `BACKTEST_CONFIG` and the
`max_position_ratio` entry of `RISK_CONFIG`, bundled with the strategy's
`GRID_CONFIG`. -/
structure EngineConfig where
  initial_capital : ℚ
  commission_rate : ℚ
  max_position_ratio : ℚ
  grid : GridConfig
deriving DecidableEq, Repr

/-- The mutable fields of `BacktestEngine`. -/
structure EngineState where
  cash : ℚ
  strategy : StrategyState
  trades : List Trade
  equity_curve : List ℚ
deriving DecidableEq, Repr

/-- `BacktestEngine.__init__` (given the bar data separately). -/
def EngineState.init (cfg : EngineConfig) : EngineState :=
  { cash := cfg.initial_capital, strategy := StrategyState.init,
    trades := [], equity_curve := [] }

/-- The body of the `for signal in signals` loop of
`BacktestEngine._process_bar`: a BUY is skipped when the bar's position
ratio already meets the risk cap or cash cannot cover
`price × amount × (1 + commission)`; a SELL always executes, crediting
proceeds net of commission and recording the FIFO P&L net of
commission. -/
def applySignal (cfg : EngineConfig) (position_ratio : ℚ) (timestamp : String)
    (e : EngineState) (sig : TradeSignal) : EngineState :=
  match sig.side with
  | .BUY =>
    if cfg.max_position_ratio ≤ position_ratio then e
    else
      let cost := sig.price * sig.amount * (1 + cfg.commission_rate)
      if cost ≤ e.cash then
        let cash' := e.cash - cost
        { e with
          cash := cash',
          strategy := execute_buy e.strategy sig.price sig.amount timestamp,
          trades := e.trades ++
            [{ timestamp := timestamp, side := .BUY, price := sig.price,
               amount := sig.amount, pnl := 0, balance := cash',
               reason := sig.reason }] }
      else e
  | .SELL =>
    let r := execute_sell e.strategy sig.price sig.amount
    let commission := sig.price * sig.amount * cfg.commission_rate
    let cash' := e.cash + sig.price * sig.amount - commission
    { e with
      cash := cash',
      strategy := r.2,
      trades := e.trades ++
        [{ timestamp := timestamp, side := .SELL, price := sig.price,
           amount := sig.amount, pnl := r.1 - commission, balance := cash',
           reason := sig.reason }] }

/-- `BacktestEngine._process_bar`: record equity, freeze the bar's
position ratio, ask the strategy for signals, and apply them in list
order. -/
def processBar (cfg : EngineConfig) (e : EngineState) (bar : Bar) : EngineState :=
  let price := bar.close
  let equity := e.cash + get_position_value e.strategy price
  let e1 : EngineState := { e with equity_curve := e.equity_curve ++ [equity] }
  let position_ratio :=
    if 0 < equity then get_position_value e.strategy price / equity else 0
  let signals := process cfg.grid e.strategy price bar.ema_fast bar.ema_slow
    bar.ema_trend bar.atr_pct bar.date
  signals.foldl (applySignal cfg position_ratio bar.date) e1

/-- The `for pos in self.strategy.positions` loop of
`BacktestEngine._close_all`: one closing trade per lot, P&L against the
lot's own entry price net of commission, cash credited with proceeds net
of commission.  Returns the final cash and the closing trades in lot
order. -/
def closeLots (commission_rate price : ℚ) (timestamp : String) (cash : ℚ) :
    List Position → ℚ × List Trade
  | [] => (cash, [])
  | pos :: restPs =>
    let commission := price * pos.amount * commission_rate
    let pnl := (price - pos.entry_price) * pos.amount - commission
    let cash' := cash + price * pos.amount - commission
    let r := closeLots commission_rate price timestamp cash' restPs
    (r.1,
     { timestamp := timestamp, side := .SELL_CLOSE, price := price,
       amount := pos.amount, pnl := pnl, balance := cash',
       reason := "close" } :: r.2)

/-- `BacktestEngine._close_all`: force-close every lot at the given
price, then clear the ledger and zero the cumulative amount.  Nothing
else of the strategy state is touched. -/
def closeAll (cfg : EngineConfig) (e : EngineState) (price : ℚ)
    (timestamp : String) : EngineState :=
  let r := closeLots cfg.commission_rate price timestamp e.cash
    e.strategy.positions
  { e with
    cash := r.1,
    strategy := { e.strategy with positions := [], total_position := 0 },
    trades := e.trades ++ r.2 }

/-! ## Result statistics (`BacktestEngine._calculate_result`) -/

/-- The fields of `backtest_engine.BacktestResult` under study (the
Sharpe ratio, which needs a real square root, is outside the claims and
is not modelled). -/
structure BacktestResult where
  total_trades : ℕ := 0
  winning_trades : ℕ := 0
  losing_trades : ℕ := 0
  win_rate : ℚ := 0
  total_pnl : ℚ := 0
  total_pnl_pct : ℚ := 0
  max_drawdown : ℚ := 0
  max_drawdown_pct : ℚ := 0
  trades : List Trade := []
  equity_curve : List ℚ := []
deriving DecidableEq, Repr

/-- One step of the drawdown loop: raise the running peak, then compare
the current drawdown `(peak − eq)/peak` (0 on a non-positive peak) with
the maximum seen so far. -/
def ddStep (pm : ℚ × ℚ) (eq : ℚ) : ℚ × ℚ :=
  let peak := if pm.1 < eq then eq else pm.1
  let dd := if 0 < peak then (peak - eq) / peak else 0
  (peak, max pm.2 dd)

/-- The drawdown loop of `_calculate_result`: the peak is seeded with the
first equity value and the whole curve is scanned (first value included);
an empty curve leaves the zero defaults.  Returns (final peak, max
drawdown fraction). -/
def maxDrawdownPair : List ℚ → ℚ × ℚ
  | [] => (0, 0)
  | e0 :: restEq => (e0 :: restEq).foldl ddStep (e0, 0)

/-- `BacktestEngine._calculate_result`: statistics over the sell-side
trades, plus drawdown over the equity curve.  The absolute max drawdown
is `peak × max_dd` with `peak` the loop's **final** running peak. -/
def calcResult (initial_capital : ℚ) (trades : List Trade)
    (equity_curve : List ℚ) : BacktestResult :=
  let sell_trades := trades.filter (fun t => t.side.isSell)
  let total := sell_trades.length
  let wins := (sell_trades.filter (fun t => 0 < t.pnl)).length
  let losses := (sell_trades.filter (fun t => t.pnl ≤ 0)).length
  let total_pnl := (sell_trades.map Trade.pnl).sum
  let dd := maxDrawdownPair equity_curve
  { total_trades := total,
    winning_trades := wins,
    losing_trades := losses,
    win_rate := if 0 < total then (wins : ℚ) / (total : ℚ) else 0,
    total_pnl := total_pnl,
    total_pnl_pct := total_pnl / initial_capital,
    max_drawdown := dd.1 * dd.2,
    max_drawdown_pct := dd.2,
    trades := trades,
    equity_curve := equity_curve }

/-- `BacktestEngine.run`: process every bar, then force-close at the last
bar's close, then compute the result.  (`run` on an empty data frame
would crash in the source on `iloc[-1]`; it is modelled for nonempty bar
lists via the final bar passed explicitly by `runBars`.) -/
def runBars (cfg : EngineConfig) (bars : List Bar) : EngineState :=
  let e := bars.foldl (processBar cfg) (EngineState.init cfg)
  match bars.getLast? with
  | some lastBar => closeAll cfg e lastBar.close lastBar.date
  | none => e

/-! ## Spec-side drawdown definitions

The spec describes the drawdown computation in terms of the running peak
at each point of the curve; these definitions follow its words so that
they can be compared with `maxDrawdownPair` above. -/

/-- Modelled from the spec: the list of (running peak, drawdown) pairs
along the curve, the peak seeded with the value passed in; "drawdown at
each point = (peak − equity)/peak (0 if peak ≤ 0)". -/
def specDDList (peak : ℚ) : List ℚ → List (ℚ × ℚ)
  | [] => []
  | eq :: rest =>
    let peak' := max peak eq
    let dd := if 0 < peak' then (peak' - eq) / peak' else 0
    (peak', dd) :: specDDList peak' rest

/-- Modelled from the spec: "max drawdown % = the maximum over the
curve". -/
def specMaxDDPct (curve : List ℚ) : ℚ :=
  match curve with
  | [] => 0
  | e0 :: _ => ((specDDList e0 curve).map Prod.snd).foldl max 0

/-- The running peak at the first point of the pair list whose drawdown
attains `m`. -/
def specPeakAtMax (m : ℚ) : List (ℚ × ℚ) → ℚ
  | [] => 0
  | p :: rest => if p.2 = m then p.1 else specPeakAtMax m rest

/-- Modelled from the spec: "absolute max drawdown = peak-at-that-point ×
max drawdown %", the point being where the maximum drawdown percentage is
attained. -/
def specAbsMaxDrawdown (curve : List ℚ) : ℚ :=
  match curve with
  | [] => 0
  | e0 :: _ =>
    let pairs := specDDList e0 curve
    let m := (pairs.map Prod.snd).foldl max 0
    specPeakAtMax m pairs * m

/-! ## Spec-side FIFO definitions

The spec describes `execute_sell` as FIFO consumption from the ledger
head; these definitions follow its words so that the implementation can
be compared against them. -/

/-- Modelled from the spec: the ledger left after FIFO consumption of a
requested amount — "fully draining lots whose amount ≤ remaining,
partially reducing the final lot otherwise". -/
def specFifoRest (q : ℚ) : List Position → List Position
  | [] => []
  | pos :: rest =>
    if 0 < q then
      if pos.amount ≤ q then specFifoRest (q - pos.amount) rest
      else { pos with amount := pos.amount - q } :: rest
    else pos :: rest

/-- Modelled from the spec: "realized P&L accumulates
(sell_price − lot.entry_price) × amount_consumed across all
consumed/partial lots". -/
def specFifoPnl (price q : ℚ) : List Position → ℚ
  | [] => 0
  | pos :: rest =>
    if 0 < q then
      if pos.amount ≤ q then
        (price - pos.entry_price) * pos.amount + specFifoPnl price (q - pos.amount) rest
      else (price - pos.entry_price) * q
    else 0

/-- The ledger-consistency invariant of the spec: the strategy's
cumulative position amount equals the sum of the lot amounts. -/
def LedgerConsistent (s : StrategyState) : Prop :=
  s.total_position = totalAmount s.positions

/-! ## Concrete fixtures used by the witnesses and example scenarios -/

/-- A grid configuration whose clamp pins the grid spacing at 1/10. -/
def exampleGrid : GridConfig :=
  { min_grid_size := 1/10, max_grid_size := 1/10, order_amount := 1 }

/-- The engine configuration of the spec's example scenario: initial
capital 10,000 and commission 0.1% (the risk cap, which the scenario
never reaches, is set to 3/4). -/
def exampleConfig : EngineConfig :=
  { initial_capital := 10000, commission_rate := 1/1000,
    max_position_ratio := 3/4, grid := exampleGrid }

/-- A consistent two-lot strategy state: 2 units at 100, then 3 at 110. -/
def exampleStrategy : StrategyState :=
  { positions := [{ entry_price := 100, amount := 2, entry_time := "a" },
                  { entry_price := 110, amount := 3, entry_time := "b" }],
    grid_center := 0, last_buy_price := 110, last_sell_price := 0,
    total_position := 5, total_cost := 530 }

/-- A strategy state with an empty ledger but a 100 buy anchor. -/
def exampleAnchored : StrategyState :=
  { positions := [], grid_center := 0, last_buy_price := 100,
    last_sell_price := 0, total_position := 0, total_cost := 0 }

/-- The engine state after the scenario's BUY of 1 unit at 100. -/
def exampleAfterBuy : EngineState :=
  applySignal exampleConfig 0 "t1" (EngineState.init exampleConfig)
    { side := .BUY, price := 100, amount := 1, reason := "", timestamp := "t1" }

/-- The engine state after the scenario's subsequent SELL of 1 unit at
110. -/
def exampleAfterSell : EngineState :=
  applySignal exampleConfig 0 "t2" exampleAfterBuy
    { side := .SELL, price := 110, amount := 1, reason := "", timestamp := "t2" }

/-! ## Theorems -/

/-- The first component of the drawdown fold is a plain running maximum. -/
theorem ddFold_fst (l : List ℚ) : ∀ p m, (l.foldl ddStep (p, m)).1 = l.foldl max p := by
  induction l with
  | nil => intro p m; rfl
  | cons eq rest ih =>
    intro p m
    have hstep : (ddStep (p, m) eq).1 = max p eq := by
      simp only [ddStep]
      rcases lt_or_ge p eq with h | h
      · rw [if_pos h, max_eq_right h.le]
      · rw [if_neg (not_lt.mpr h), max_eq_left h]
    simp only [List.foldl_cons]
    rw [show ddStep (p, m) eq = ((ddStep (p, m) eq).1, (ddStep (p, m) eq).2) from rfl,
      hstep, ih]

/-- The second component of the drawdown fold is the running maximum of
the spec's pointwise drawdown list. -/
theorem ddFold_snd (l : List ℚ) :
    ∀ p m, (l.foldl ddStep (p, m)).2 = ((specDDList p l).map Prod.snd).foldl max m := by
  induction l with
  | nil => intro p m; rfl
  | cons eq rest ih =>
    intro p m
    have hpk : (if p < eq then eq else p) = max p eq := by
      rcases lt_or_ge p eq with h | h
      · rw [if_pos h, max_eq_right h.le]
      · rw [if_neg (not_lt.mpr h), max_eq_left h]
    have hstep : ddStep (p, m) eq =
        (max p eq, max m (if 0 < max p eq then (max p eq - eq) / max p eq else 0)) := by
      simp only [ddStep, hpk]
    simp only [List.foldl_cons, hstep, specDDList, List.map_cons, ih]

end TradingBot

namespace TradingBot

/-- C1: counterexample.  On the equity curve `[100, 50, 200]` the maximum
drawdown fraction (1/2) is attained at the second point, where the
running peak is 100, so the spec's formula gives 100 × 1/2 = 50; the code
multiplies by the *final* running peak 200 and reports 100. -/
theorem claim1_counterexample :
    (calcResult 10000 [] [100, 50, 200]).max_drawdown
      ≠ specAbsMaxDrawdown [100, 50, 200] := by
  have hcode : (calcResult 10000 [] [100, 50, 200]).max_drawdown = 100 := by
    norm_num [calcResult, maxDrawdownPair, ddStep]
  have hspec : specAbsMaxDrawdown [100, 50, 200] = 50 := by
    norm_num [specAbsMaxDrawdown, specDDList, specPeakAtMax]
  rw [hcode, hspec]
  norm_num

/-- C1 (amended): the result's max drawdown percentage is the maximum of
the spec's pointwise drawdowns `(peak − equity)/peak` (0 on a
non-positive peak) over the curve, and the absolute max drawdown equals
the **final** running peak of the whole curve (its overall maximum,
seeded at the first value) multiplied by that percentage — not the peak
at the point where the maximum drawdown is attained. -/
theorem claim1_max_drawdown (cap : ℚ) (trades : List Trade) (e0 : ℚ) (rest : List ℚ) :
    (calcResult cap trades (e0 :: rest)).max_drawdown_pct = specMaxDDPct (e0 :: rest)
    ∧ (calcResult cap trades (e0 :: rest)).max_drawdown
        = (rest.foldl max e0) * specMaxDDPct (e0 :: rest) := by
  have hpair : maxDrawdownPair (e0 :: rest) = (e0 :: rest).foldl ddStep (e0, 0) := rfl
  have hsnd : ((e0 :: rest).foldl ddStep (e0, 0)).2 = specMaxDDPct (e0 :: rest) := by
    rw [ddFold_snd]; rfl
  have hfst : ((e0 :: rest).foldl ddStep (e0, 0)).1 = rest.foldl max e0 := by
    rw [ddFold_fst]
    simp only [List.foldl_cons, max_self]
  constructor
  · show (maxDrawdownPair (e0 :: rest)).2 = _
    rw [hpair, hsnd]
  · show (maxDrawdownPair (e0 :: rest)).1 * (maxDrawdownPair (e0 :: rest)).2 = _
    rw [hpair, hsnd, hfst]

end TradingBot

namespace TradingBot

theorem totalAmount_cons (pos : Position) (l : List Position) :
    totalAmount (pos :: l) = pos.amount + totalAmount l := by
  simp [totalAmount]

theorem totalAmount_append (l1 l2 : List Position) :
    totalAmount (l1 ++ l2) = totalAmount l1 + totalAmount l2 := by
  simp [totalAmount]

theorem totalCost_cons (pos : Position) (l : List Position) :
    totalCost (pos :: l) = pos.entry_price * pos.amount + totalCost l := by
  simp [totalCost]

theorem totalAmount_nonneg (l : List Position) (h : ∀ pos ∈ l, 0 < pos.amount) :
    0 ≤ totalAmount l := by
  induction l with
  | nil => simp [totalAmount]
  | cons pos rest ih =>
    rw [totalAmount_cons]
    have h1 : 0 < pos.amount := h pos (List.mem_cons_self pos rest)
    have h2 : 0 ≤ totalAmount rest :=
      ih (fun q hq => h q (List.mem_cons_of_mem pos hq))
    linarith

/-- The FIFO loop's realized P&L is proceeds at the sell price minus the
cost basis of what it consumed. -/
theorem sellLoop_pnl_eq (p : ℚ) : ∀ (l : List Position) (r : ℚ),
    (sellLoop p r l).pnl = p * (sellLoop p r l).soldAmount - (sellLoop p r l).soldCost := by
  intro l
  induction l with
  | nil => intro r; simp [sellLoop]
  | cons pos rest ih =>
    intro r
    by_cases h1 : 0 < r
    · by_cases h2 : pos.amount ≤ r
      · simp only [sellLoop, if_pos h1, if_pos h2]
        rw [ih]
        ring
      · simp only [sellLoop, if_pos h1, if_neg h2]
        ring
    · simp only [sellLoop, if_neg h1]
      simp

/-- The amount the FIFO loop consumes is what left the ledger. -/
theorem sellLoop_soldAmount_eq (p : ℚ) : ∀ (l : List Position) (r : ℚ),
    (sellLoop p r l).soldAmount = totalAmount l - totalAmount (sellLoop p r l).rest := by
  intro l
  induction l with
  | nil => intro r; simp [sellLoop, totalAmount]
  | cons pos rest ih =>
    intro r
    by_cases h1 : 0 < r
    · by_cases h2 : pos.amount ≤ r
      · simp only [sellLoop, if_pos h1, if_pos h2]
        rw [ih, totalAmount_cons]
        ring
      · simp only [sellLoop, if_pos h1, if_neg h2]
        rw [totalAmount_cons, totalAmount_cons]
        ring
    · simp only [sellLoop, if_neg h1]
      ring

/-- The cost basis the FIFO loop consumes is what left the ledger. -/
theorem sellLoop_soldCost_eq (p : ℚ) : ∀ (l : List Position) (r : ℚ),
    (sellLoop p r l).soldCost = totalCost l - totalCost (sellLoop p r l).rest := by
  intro l
  induction l with
  | nil => intro r; simp [sellLoop, totalCost]
  | cons pos rest ih =>
    intro r
    by_cases h1 : 0 < r
    · by_cases h2 : pos.amount ≤ r
      · simp only [sellLoop, if_pos h1, if_pos h2]
        rw [ih, totalCost_cons]
        ring
      · simp only [sellLoop, if_pos h1, if_neg h2]
        rw [totalCost_cons, totalCost_cons]
        ring
    · simp only [sellLoop, if_neg h1]
      ring

/-- On a ledger of positive lots a nonnegative request consumes exactly
`min request available`. -/
theorem sellLoop_sold_min (p : ℚ) : ∀ (l : List Position) (r : ℚ),
    (∀ pos ∈ l, 0 < pos.amount) → 0 ≤ r →
    (sellLoop p r l).soldAmount = min r (totalAmount l) := by
  intro l
  induction l with
  | nil =>
    intro r _ hr
    simp [sellLoop, totalAmount, min_eq_right hr]
  | cons pos rest ih =>
    intro r hpos hr
    have hrest : ∀ q ∈ rest, 0 < q.amount :=
      fun q hq => hpos q (List.mem_cons_of_mem pos hq)
    have hTn : 0 ≤ totalAmount rest := totalAmount_nonneg rest hrest
    by_cases h1 : 0 < r
    · by_cases h2 : pos.amount ≤ r
      · simp only [sellLoop, if_pos h1, if_pos h2]
        rw [ih (r - pos.amount) hrest (by linarith), totalAmount_cons,
          ← min_add_add_left, show pos.amount + (r - pos.amount) = r by ring]
      · simp only [sellLoop, if_pos h1, if_neg h2]
        rw [totalAmount_cons, min_eq_left (by linarith [not_le.mp h2])]
    · have hr0 : r = 0 := le_antisymm (not_lt.mp h1) hr
      simp only [sellLoop, if_neg h1]
      rw [hr0, min_eq_left (totalAmount_nonneg (pos :: rest) hpos)]

/-- The implementation's surviving ledger is the spec's FIFO remainder. -/
theorem sellLoop_rest_spec (p : ℚ) : ∀ (l : List Position) (r : ℚ),
    (sellLoop p r l).rest = specFifoRest r l := by
  intro l
  induction l with
  | nil => intro r; simp [sellLoop, specFifoRest]
  | cons pos rest ih =>
    intro r
    by_cases h1 : 0 < r
    · by_cases h2 : pos.amount ≤ r
      · simp only [sellLoop, specFifoRest, if_pos h1, if_pos h2]
        exact ih _
      · simp only [sellLoop, specFifoRest, if_pos h1, if_neg h2]
    · simp only [sellLoop, specFifoRest, if_neg h1]

/-- The implementation's realized P&L is the spec's FIFO P&L. -/
theorem sellLoop_pnl_spec (p : ℚ) : ∀ (l : List Position) (r : ℚ),
    (sellLoop p r l).pnl = specFifoPnl p r l := by
  intro l
  induction l with
  | nil => intro r; simp [sellLoop, specFifoPnl]
  | cons pos rest ih =>
    intro r
    by_cases h1 : 0 < r
    · by_cases h2 : pos.amount ≤ r
      · simp only [sellLoop, specFifoPnl, if_pos h1, if_pos h2]
        rw [ih]
      · simp only [sellLoop, specFifoPnl, if_pos h1, if_neg h2]
    · simp only [sellLoop, specFifoPnl, if_neg h1]

end TradingBot

namespace TradingBot

/-- C2: `execute_sell` consumes lots from the ledger head in FIFO order
(the surviving ledger is the spec's FIFO remainder), returns the spec's
accumulated `(p − entry) × consumed` P&L, drops both the ledger sum and
the cumulative position by `min request available`, and resets both
anchors to 0 exactly when the ledger empties (otherwise moves the sell
anchor to the executed price). -/
theorem claim2_execute_sell (s : StrategyState) (p a : ℚ)
    (hpos : ∀ pos ∈ s.positions, 0 < pos.amount) (ha : 0 ≤ a) :
    (execute_sell s p a).2.positions = specFifoRest a s.positions
    ∧ (execute_sell s p a).1 = specFifoPnl p a s.positions
    ∧ totalAmount (execute_sell s p a).2.positions
        = totalAmount s.positions - min a (totalAmount s.positions)
    ∧ (execute_sell s p a).2.total_position
        = s.total_position - min a (totalAmount s.positions)
    ∧ ((execute_sell s p a).2.positions = [] →
        (execute_sell s p a).2.last_buy_price = 0
        ∧ (execute_sell s p a).2.last_sell_price = 0)
    ∧ ((execute_sell s p a).2.positions ≠ [] →
        (execute_sell s p a).2.last_sell_price = p
        ∧ (execute_sell s p a).2.last_buy_price = s.last_buy_price) := by
  have hmin := sellLoop_sold_min p s.positions a hpos ha
  have hamt := sellLoop_soldAmount_eq p s.positions a
  refine ⟨sellLoop_rest_spec p s.positions a, sellLoop_pnl_spec p s.positions a,
    ?_, ?_, ?_, ?_⟩
  · show totalAmount (sellLoop p a s.positions).rest = _
    rw [← hmin]
    linarith [hamt]
  · show s.total_position - (sellLoop p a s.positions).soldAmount = _
    rw [hmin]
  · intro h
    have hnil : (sellLoop p a s.positions).rest = [] := h
    simp only [execute_sell, hnil, List.isEmpty_nil, if_true]
    exact ⟨trivial, trivial⟩
  · intro h
    have hne : (sellLoop p a s.positions).rest ≠ [] := h
    have hfalse : (sellLoop p a s.positions).rest.isEmpty = false := by
      cases hrest : (sellLoop p a s.positions).rest with
      | nil => exact absurd hrest hne
      | cons x xs => rfl
    simp only [execute_sell, hfalse, Bool.false_eq_true, if_false]
    exact ⟨trivial, trivial⟩

/-- C2 witness: selling 3 units at 120 from the two-lot example ledger
(2 at 100, 3 at 110) leaves 5 − min 3 5 = 2 units outstanding. -/
theorem claim2_witness :
    (0:ℚ) ≤ 3
    ∧ totalAmount (execute_sell exampleStrategy 120 3).2.positions
        = totalAmount exampleStrategy.positions
          - min 3 (totalAmount exampleStrategy.positions) :=
  ⟨by norm_num,
   (claim2_execute_sell exampleStrategy 120 3
      (by
        intro pos h
        simp only [exampleStrategy, List.mem_cons, List.not_mem_nil, or_false] at h
        rcases h with h | h <;> (subst h; norm_num))
      (by norm_num)).2.2.1⟩

end TradingBot

namespace TradingBot

/-- C3: the ledger-consistency invariant (cumulative position amount =
sum of lot amounts) holds initially and is preserved by `execute_buy`,
`execute_sell`, and the engine's forced end-of-run close. -/
theorem claim3_ledger_consistency :
    LedgerConsistent StrategyState.init
    ∧ (∀ (s : StrategyState) (p a : ℚ) (ts : String),
        LedgerConsistent s → LedgerConsistent (execute_buy s p a ts))
    ∧ (∀ (s : StrategyState) (p a : ℚ),
        LedgerConsistent s → LedgerConsistent (execute_sell s p a).2)
    ∧ (∀ (cfg : EngineConfig) (e : EngineState) (price : ℚ) (ts : String),
        LedgerConsistent (closeAll cfg e price ts).strategy) := by
  refine ⟨?_, ?_, ?_, ?_⟩
  · simp [LedgerConsistent, StrategyState.init, totalAmount]
  · intro s p a ts h
    simp only [LedgerConsistent, execute_buy] at h ⊢
    rw [totalAmount_append, totalAmount_cons]
    simp only [totalAmount, List.map_nil, List.sum_nil] at h ⊢
    linarith
  · intro s p a h
    simp only [LedgerConsistent, execute_sell] at h ⊢
    have := sellLoop_soldAmount_eq p s.positions a
    linarith
  · intro cfg e price ts
    simp [LedgerConsistent, closeAll, totalAmount]

/-- C3 witness: the two-lot example state is consistent and stays so
after a buy of 1 at 120 and after a sell of 3 at 120. -/
theorem claim3_witness :
    LedgerConsistent exampleStrategy
    ∧ LedgerConsistent (execute_buy exampleStrategy 120 1 "c")
    ∧ LedgerConsistent (execute_sell exampleStrategy 120 3).2 := by
  have hcons : LedgerConsistent exampleStrategy := by
    norm_num [LedgerConsistent, exampleStrategy, totalAmount]
  exact ⟨hcons,
    claim3_ledger_consistency.2.1 exampleStrategy 120 1 "c" hcons,
    claim3_ledger_consistency.2.2.1 exampleStrategy 120 3 hcons⟩

/-- Splitting a FIFO sale in two at the same price consumes the same
lots, loses the same cost basis, realizes the same total P&L, and leaves
the same ledger as the combined sale. -/
theorem sellLoop_add (p a2 : ℚ) (ha2 : 0 ≤ a2) :
    ∀ (l : List Position) (a1 : ℚ), 0 ≤ a1 →
    (sellLoop p (a1 + a2) l).pnl
        = (sellLoop p a1 l).pnl + (sellLoop p a2 (sellLoop p a1 l).rest).pnl
    ∧ (sellLoop p (a1 + a2) l).soldAmount
        = (sellLoop p a1 l).soldAmount
          + (sellLoop p a2 (sellLoop p a1 l).rest).soldAmount
    ∧ (sellLoop p (a1 + a2) l).soldCost
        = (sellLoop p a1 l).soldCost
          + (sellLoop p a2 (sellLoop p a1 l).rest).soldCost
    ∧ (sellLoop p (a1 + a2) l).rest
        = (sellLoop p a2 (sellLoop p a1 l).rest).rest := by
  intro l
  induction l with
  | nil =>
    intro a1 _
    simp [sellLoop]
  | cons pos rest ih =>
    intro a1 ha1
    by_cases h1 : 0 < a1
    · by_cases h2 : pos.amount ≤ a1
      · -- the first sale already drains the head lot
        have h12 : 0 < a1 + a2 := by linarith
        have h22 : pos.amount ≤ a1 + a2 := by linarith
        have harg : a1 + a2 - pos.amount = a1 - pos.amount + a2 := by ring
        obtain ⟨ihp, ihs, ihc, ihr⟩ := ih (a1 - pos.amount) (by linarith)
        refine ⟨?_, ?_, ?_, ?_⟩ <;>
          simp only [sellLoop, if_pos h1, if_pos h2, if_pos h12, if_pos h22,
            harg, ihp, ihs, ihc, ihr] <;>
          try ring
      · have hlt := not_le.mp h2
        by_cases h3 : 0 < a2
        · by_cases h4 : pos.amount ≤ a1 + a2
          · -- the second sale finishes the partially reduced head lot
            have h12 : 0 < a1 + a2 := by linarith
            have h5 : pos.amount - a1 ≤ a2 := by linarith
            have harg : a2 - (pos.amount - a1) = a1 + a2 - pos.amount := by ring
            refine ⟨?_, ?_, ?_, ?_⟩ <;>
              simp only [sellLoop, if_pos h1, if_neg h2, if_pos h12, if_pos h4,
                if_pos h3, if_pos h5, harg] <;>
              try ring
          · -- the head lot survives both sales, reduced twice
            have h12 : 0 < a1 + a2 := by linarith
            have h5 : ¬(pos.amount - a1 ≤ a2) := by
              intro hc
              exact h4 (by linarith)
            refine ⟨?_, ?_, ?_, ?_⟩ <;>
              simp only [sellLoop, if_pos h1, if_neg h2, if_pos h12, if_neg h4,
                if_pos h3, if_neg h5, List.cons.injEq, Position.mk.injEq,
                true_and, and_true] <;>
              try ring
        · -- a2 = 0 : the second sale is a no-op
          have ha20 : a2 = 0 := le_antisymm (not_lt.mp h3) ha2
          subst ha20
          refine ⟨?_, ?_, ?_, ?_⟩ <;>
            simp only [add_zero, sellLoop, if_pos h1, if_neg h2,
              if_neg (lt_irrefl (0 : ℚ))]
    · -- a1 = 0 : the first sale is a no-op
      have ha10 : a1 = 0 := le_antisymm (not_lt.mp h1) ha1
      subst ha10
      refine ⟨?_, ?_, ?_, ?_⟩ <;>
        simp only [zero_add, sellLoop, if_neg h1]

end TradingBot

namespace TradingBot

/-- C7: at one price, selling `a1` and then `a2` realizes the same total
P&L and reaches exactly the same strategy state (ledger, totals, and
anchors) as a single sale of `a1 + a2`; hence the grouping of a bar's
lot-bound SELL signals does not affect the outcome. -/
theorem claim7_sell_split (s : StrategyState) (p a1 a2 : ℚ)
    (ha1 : 0 ≤ a1) (ha2 : 0 ≤ a2) :
    (execute_sell s p a1).1 + (execute_sell (execute_sell s p a1).2 p a2).1
      = (execute_sell s p (a1 + a2)).1
    ∧ (execute_sell (execute_sell s p a1).2 p a2).2
      = (execute_sell s p (a1 + a2)).2 := by
  obtain ⟨hp, hs, hc, hr⟩ := sellLoop_add p a2 ha2 s.positions a1 ha1
  constructor
  · show (sellLoop p a1 s.positions).pnl
        + (sellLoop p a2 (sellLoop p a1 s.positions).rest).pnl
      = (sellLoop p (a1 + a2) s.positions).pnl
    exact hp.symm
  · simp only [execute_sell, StrategyState.mk.injEq]
    refine ⟨hr.symm, trivial, ?_, ?_, by linarith, by linarith⟩
    · -- the buy anchor after the two-step sale
      rw [hr]
      by_cases hm : (sellLoop p a2 (sellLoop p a1 s.positions).rest).rest.isEmpty
        = true
      · simp [hm]
      · have hr1 : (sellLoop p a1 s.positions).rest.isEmpty = false := by
          cases hcase : (sellLoop p a1 s.positions).rest with
          | nil =>
            exfalso
            rw [hcase] at hm
            exact hm rfl
          | cons x xs => rfl
        simp [hm, hr1]
    · -- the sell anchor after the two-step sale
      rw [hr]

/-- C7 witness: on the two-lot example ledger, selling 1 then 2 units at
120 agrees with selling 3 at once. -/
theorem claim7_witness :
    (0:ℚ) ≤ 1 ∧ (0:ℚ) ≤ 2
    ∧ (execute_sell exampleStrategy 120 1).1
        + (execute_sell (execute_sell exampleStrategy 120 1).2 120 2).1
      = (execute_sell exampleStrategy 120 (1 + 2)).1
    ∧ (execute_sell (execute_sell exampleStrategy 120 1).2 120 2).2
      = (execute_sell exampleStrategy 120 (1 + 2)).2 := by
  have h := claim7_sell_split exampleStrategy 120 1 2 (by norm_num) (by norm_num)
  exact ⟨by norm_num, by norm_num, h.1, h.2⟩

end TradingBot

namespace TradingBot

/-- C4: capital conservation.  An executed BUY debits exactly
`price × amount × (1 + commission_rate)`; an executed SELL credits
`price × amount` minus `price × amount × commission_rate` and records the
FIFO P&L net of that commission.  The spec's scenario with capital
10,000 and 0.1% commission: a BUY of 1 at 100 leaves cash 9,899.90 and
one open lot (100, 1); the subsequent SELL of 1 at 110 records net P&L
9.89, leaves cash 10,009.79, empties the ledger and resets both
anchors. -/
theorem claim4_capital_conservation :
    (∀ (cfg : EngineConfig) (ratio : ℚ) (ts : String) (e : EngineState)
        (sig : TradeSignal), sig.side = .BUY →
        ratio < cfg.max_position_ratio →
        sig.price * sig.amount * (1 + cfg.commission_rate) ≤ e.cash →
        (applySignal cfg ratio ts e sig).cash
          + sig.price * sig.amount * (1 + cfg.commission_rate) = e.cash)
    ∧ (∀ (cfg : EngineConfig) (ratio : ℚ) (ts : String) (e : EngineState)
        (sig : TradeSignal), sig.side = .SELL →
        (applySignal cfg ratio ts e sig).cash
          = e.cash + sig.price * sig.amount
            - sig.price * sig.amount * cfg.commission_rate
        ∧ (applySignal cfg ratio ts e sig).trades
          = e.trades ++
            [{ timestamp := ts, side := .SELL, price := sig.price,
               amount := sig.amount,
               pnl := (execute_sell e.strategy sig.price sig.amount).1
                 - sig.price * sig.amount * cfg.commission_rate,
               balance := e.cash + sig.price * sig.amount
                 - sig.price * sig.amount * cfg.commission_rate,
               reason := sig.reason }])
    ∧ exampleAfterBuy.cash = 98999/10
    ∧ exampleAfterBuy.strategy.positions
        = [{ entry_price := 100, amount := 1, entry_time := "t1" }]
    ∧ exampleAfterSell.trades.map Trade.pnl = [0, 989/100]
    ∧ exampleAfterSell.cash = 1000979/100
    ∧ exampleAfterSell.strategy.positions = []
    ∧ exampleAfterSell.strategy.last_buy_price = 0
    ∧ exampleAfterSell.strategy.last_sell_price = 0 := by
  refine ⟨?_, ?_, ?_, ?_, ?_, ?_, ?_, ?_, ?_⟩
  · intro cfg ratio ts e sig hside hratio hcash
    simp only [applySignal, hside, if_neg (not_le.mpr hratio), if_pos hcash]
    ring
  · intro cfg ratio ts e sig hside
    simp only [applySignal, hside]
    exact ⟨trivial, trivial⟩
  all_goals
    norm_num [exampleAfterSell, exampleAfterBuy, exampleConfig, exampleGrid,
      applySignal, EngineState.init, StrategyState.init, execute_buy,
      execute_sell, sellLoop]

/-- C4 witness: the BUY conservation law applied at the scenario's
concrete input. -/
theorem claim4_witness :
    (applySignal exampleConfig 0 "t1" (EngineState.init exampleConfig)
        { side := .BUY, price := 100, amount := 1, reason := "",
          timestamp := "t1" }).cash
      + 100 * 1 * (1 + exampleConfig.commission_rate)
      = (EngineState.init exampleConfig).cash :=
  claim4_capital_conservation.1 exampleConfig 0 "t1"
    (EngineState.init exampleConfig)
    { side := .BUY, price := 100, amount := 1, reason := "", timestamp := "t1" }
    rfl
    (by norm_num [exampleConfig])
    (by norm_num [exampleConfig, EngineState.init])

end TradingBot

namespace TradingBot

theorem closeLots_trades_pnl (c p : ℚ) (ts : String) :
    ∀ (l : List Position) (cash : ℚ),
    ((closeLots c p ts cash l).2).map Trade.pnl
      = l.map (fun pos => (p - pos.entry_price) * pos.amount - p * pos.amount * c) := by
  intro l
  induction l with
  | nil => intro cash; rfl
  | cons pos rest ih =>
    intro cash
    simp only [closeLots, List.map_cons, List.cons.injEq]
    exact ⟨trivial, ih _⟩

theorem closeLots_trades_side (c p : ℚ) (ts : String) :
    ∀ (l : List Position) (cash : ℚ),
    ((closeLots c p ts cash l).2).map Trade.side
      = l.map (fun _ => TradeSide.SELL_CLOSE) := by
  intro l
  induction l with
  | nil => intro cash; rfl
  | cons pos rest ih =>
    intro cash
    simp only [closeLots, List.map_cons, List.cons.injEq]
    exact ⟨trivial, ih _⟩

theorem closeLots_trades_amount (c p : ℚ) (ts : String) :
    ∀ (l : List Position) (cash : ℚ),
    ((closeLots c p ts cash l).2).map Trade.amount = l.map Position.amount := by
  intro l
  induction l with
  | nil => intro cash; rfl
  | cons pos rest ih =>
    intro cash
    simp only [closeLots, List.map_cons, List.cons.injEq]
    exact ⟨trivial, ih _⟩

theorem closeLots_trades_length (c p : ℚ) (ts : String) (l : List Position)
    (cash : ℚ) : ((closeLots c p ts cash l).2).length = l.length := by
  have h := congrArg List.length (closeLots_trades_pnl c p ts l cash)
  simpa using h

/-- C5: the forced end-of-run close empties the ledger, zeroes the
cumulative position, keeps the prior trade log as a prefix, and appends
exactly one closing SELL trade per remaining lot, each with the lot's own
amount and with P&L computed against that lot's own entry price net of
commission. -/
theorem claim5_close_all (cfg : EngineConfig) (e : EngineState) (price : ℚ)
    (ts : String) :
    (closeAll cfg e price ts).strategy.positions = []
    ∧ (closeAll cfg e price ts).strategy.total_position = 0
    ∧ (closeAll cfg e price ts).trades.take e.trades.length = e.trades
    ∧ ((closeAll cfg e price ts).trades.drop e.trades.length).length
        = e.strategy.positions.length
    ∧ ((closeAll cfg e price ts).trades.drop e.trades.length).map Trade.side
        = e.strategy.positions.map (fun _ => TradeSide.SELL_CLOSE)
    ∧ ((closeAll cfg e price ts).trades.drop e.trades.length).map Trade.pnl
        = e.strategy.positions.map
            (fun pos => (price - pos.entry_price) * pos.amount
              - price * pos.amount * cfg.commission_rate)
    ∧ ((closeAll cfg e price ts).trades.drop e.trades.length).map Trade.amount
        = e.strategy.positions.map Position.amount := by
  have htr : (closeAll cfg e price ts).trades
      = e.trades ++ (closeLots cfg.commission_rate price ts e.cash
          e.strategy.positions).2 := rfl
  refine ⟨rfl, rfl, ?_, ?_, ?_, ?_, ?_⟩
  · rw [htr, List.take_left]
  · rw [htr, List.drop_left, closeLots_trades_length]
  · rw [htr, List.drop_left, closeLots_trades_side]
  · rw [htr, List.drop_left, closeLots_trades_pnl]
  · rw [htr, List.drop_left, closeLots_trades_amount]

/-- C9: the forced close is frame-preserving on everything except the
ledger and the cumulative amount: the accumulated cost basis and both
anchors keep their pre-close values (unlike an `execute_sell` that
empties the ledger, which zeroes the anchors).  In particular, closing
the two-lot example state leaves its buy anchor at 110 even though the
ledger is now empty. -/
theorem claim9_close_all_frame (cfg : EngineConfig) (e : EngineState) (price : ℚ)
    (ts : String) :
    (closeAll cfg e price ts).strategy.total_cost = e.strategy.total_cost
    ∧ (closeAll cfg e price ts).strategy.last_buy_price
        = e.strategy.last_buy_price
    ∧ (closeAll cfg e price ts).strategy.last_sell_price
        = e.strategy.last_sell_price
    ∧ (closeAll cfg e price ts).strategy.grid_center = e.strategy.grid_center
    ∧ (closeAll cfg e price ts).strategy.positions = []
    ∧ (closeAll cfg e price ts).strategy.total_position = 0
    ∧ (closeAll exampleConfig
        { cash := 10000, strategy := exampleStrategy, trades := [],
          equity_curve := [] } 120 "end").strategy.positions = []
    ∧ (closeAll exampleConfig
        { cash := 10000, strategy := exampleStrategy, trades := [],
          equity_curve := [] } 120 "end").strategy.last_buy_price = 110 :=
  ⟨rfl, rfl, rfl, rfl, rfl, rfl, rfl, rfl⟩

end TradingBot

namespace TradingBot

/-- C6: in the BEAR regime, `process` emits a BUY signal if and only if
the buy anchor is positive and the price is at or below
`anchor × (1 − 2 × grid)` — the boundary is inclusive, any price strictly
above it produces no buy, and a zero anchor never buys. -/
theorem claim6_bear_buy (cfg : GridConfig) (s : StrategyState)
    (price f sl tr atr : ℚ) (ts : String)
    (hbear : detect_market_state price f sl tr = .BEAR) :
    (∃ sig ∈ process cfg s price f sl tr atr ts, sig.side = OrderSide.BUY)
      ↔ 0 < s.last_buy_price
        ∧ price ≤ s.last_buy_price * (1 - 2 * gridSize cfg atr) := by
  have hflip : s.last_buy_price * (1 - 2 * gridSize cfg atr)
      = s.last_buy_price * (1 - gridSize cfg atr * 2) := by ring
  rw [hflip]
  simp only [process, hbear]
  constructor
  · rintro ⟨sig, hmem, hside⟩
    rcases List.mem_append.mp hmem with hB | hS
    · by_cases hb : shouldBuy .BEAR s.last_buy_price price (gridSize cfg atr)
        = true
      · simpa [shouldBuy] using hb
      · rw [Bool.not_eq_true] at hb
        simp [hb] at hB
    · obtain ⟨pos, _, hpos⟩ := List.mem_map.mp hS
      rw [← hpos] at hside
      simp at hside
  · intro h
    have hb : shouldBuy .BEAR s.last_buy_price price (gridSize cfg atr) = true := by
      simpa [shouldBuy] using h
    exact ⟨{ side := .BUY, price := price, amount := cfg.order_amount,
             reason := "buy", timestamp := ts },
           by simp [hb], rfl⟩

/-- C6 witness: with anchor 100 and grid pinned at 1/10, a BEAR-regime
price of exactly 100 × (1 − 2 × 1/10) = 80 triggers the buy. -/
theorem claim6_witness :
    detect_market_state 80 1 2 100 = .BEAR
    ∧ ((∃ sig ∈ process exampleGrid exampleAnchored 80 1 2 100 0 "",
          sig.side = OrderSide.BUY)
        ↔ 0 < exampleAnchored.last_buy_price
          ∧ (80:ℚ) ≤ exampleAnchored.last_buy_price
              * (1 - 2 * gridSize exampleGrid 0)) :=
  ⟨by norm_num [detect_market_state],
   claim6_bear_buy exampleGrid exampleAnchored 80 1 2 100 0 ""
     (by norm_num [detect_market_state])⟩

end TradingBot

namespace TradingBot

/-- Wins (P&L > 0) and losses (P&L ≤ 0) partition any trade list. -/
theorem filter_pos_add_filter_nonpos (L : List Trade) :
    (L.filter (fun t => decide (0 < t.pnl))).length
      + (L.filter (fun t => decide (t.pnl ≤ 0))).length = L.length := by
  induction L with
  | nil => rfl
  | cons t rest ih =>
    by_cases h : 0 < t.pnl
    · have h2 : ¬t.pnl ≤ 0 := not_le.mpr h
      simp [List.filter_cons, h, h2]
      omega
    · have h2 : t.pnl ≤ 0 := not_lt.mp h
      simp [List.filter_cons, h, h2]
      omega

/-- Appending a BUY trade leaves the sell-side selection unchanged. -/
theorem filter_sell_append_buy (trades : List Trade) (ts : String)
    (p a pnl bal : ℚ) (rs : String) :
    (trades ++ [({ timestamp := ts, side := .BUY, price := p, amount := a,
                   pnl := pnl, balance := bal, reason := rs } : Trade)]).filter
        (fun t => t.side.isSell)
      = trades.filter (fun t => t.side.isSell) := by
  simp [List.filter_append, TradeSide.isSell]

/-- C8: only sell-side trades (including closing sells) are counted; a
win is P&L > 0 and a loss is P&L ≤ 0, so wins + losses = total; the win
rate is wins/total when total > 0 and 0 otherwise; and appending a BUY
trade changes none of the statistics. -/
theorem claim8_result_stats (cap : ℚ) (trades : List Trade) (curve : List ℚ)
    (ts : String) (p a pnl bal : ℚ) (rs : String) :
    (calcResult cap trades curve).winning_trades
        + (calcResult cap trades curve).losing_trades
      = (calcResult cap trades curve).total_trades
    ∧ (calcResult cap trades curve).total_trades
        = (trades.filter (fun t => t.side.isSell)).length
    ∧ (calcResult cap trades curve).winning_trades
        = ((trades.filter (fun t => t.side.isSell)).filter
            (fun t => decide (0 < t.pnl))).length
    ∧ (calcResult cap trades curve).losing_trades
        = ((trades.filter (fun t => t.side.isSell)).filter
            (fun t => decide (t.pnl ≤ 0))).length
    ∧ (calcResult cap trades curve).win_rate
        = (if 0 < (calcResult cap trades curve).total_trades then
            ((calcResult cap trades curve).winning_trades : ℚ)
              / ((calcResult cap trades curve).total_trades : ℚ)
          else 0)
    ∧ (calcResult cap
          (trades ++ [{ timestamp := ts, side := .BUY, price := p,
                        amount := a, pnl := pnl, balance := bal,
                        reason := rs }]) curve).total_trades
        = (calcResult cap trades curve).total_trades
    ∧ (calcResult cap
          (trades ++ [{ timestamp := ts, side := .BUY, price := p,
                        amount := a, pnl := pnl, balance := bal,
                        reason := rs }]) curve).winning_trades
        = (calcResult cap trades curve).winning_trades
    ∧ (calcResult cap
          (trades ++ [{ timestamp := ts, side := .BUY, price := p,
                        amount := a, pnl := pnl, balance := bal,
                        reason := rs }]) curve).losing_trades
        = (calcResult cap trades curve).losing_trades
    ∧ (calcResult cap
          (trades ++ [{ timestamp := ts, side := .BUY, price := p,
                        amount := a, pnl := pnl, balance := bal,
                        reason := rs }]) curve).win_rate
        = (calcResult cap trades curve).win_rate
    ∧ (calcResult cap
          (trades ++ [{ timestamp := ts, side := .BUY, price := p,
                        amount := a, pnl := pnl, balance := bal,
                        reason := rs }]) curve).total_pnl
        = (calcResult cap trades curve).total_pnl := by
  have hfb := filter_sell_append_buy trades ts p a pnl bal rs
  refine ⟨?_, rfl, rfl, rfl, rfl, ?_, ?_, ?_, ?_, ?_⟩
  · exact filter_pos_add_filter_nonpos (trades.filter (fun t => t.side.isSell))
  all_goals
    simp only [calcResult, hfb]

end TradingBot

namespace TradingBot

/-- Every signal built by the sell branch of `process` is a SELL. -/
theorem sell_branch_all_sell (R : List Position) (price : ℚ) (ts : String)
    (n : ℕ) :
    ((R.map (fun pos =>
        ({ side := .SELL, price := price, amount := pos.amount,
           reason := "sell", timestamp := ts } : TradeSignal))).drop n).all
      (fun g => decide (g.side = OrderSide.SELL)) = true := by
  rw [List.all_eq_true]
  intro x hx
  have hx' := List.mem_of_mem_drop hx
  obtain ⟨pos, _, hpos⟩ := List.mem_map.mp hx'
  rw [← hpos]
  simp

/-- The sell branch of `process` survives the SELL filter unchanged. -/
theorem sell_branch_filter (R : List Position) (price : ℚ) (ts : String) :
    (R.map (fun pos =>
        ({ side := .SELL, price := price, amount := pos.amount,
           reason := "sell", timestamp := ts } : TradeSignal))).filter
      (fun g => decide (g.side = OrderSide.SELL))
    = R.map (fun pos =>
        ({ side := .SELL, price := price, amount := pos.amount,
           reason := "sell", timestamp := ts } : TradeSignal)) := by
  induction R with
  | nil => rfl
  | cons pos rest ih =>
    simp only [List.map_cons, List.filter_cons]
    rw [if_pos (by simp)]
    rw [ih]

/-- C10: in a bar's signal list the BUY (when present) can only sit at
the head — everything after the first signal is a SELL; the SELL signals
are exactly the qualifying lots in reverse ledger order; and the engine's
`_process_bar` applies that list left to right (a fold), so the bar's buy
is executed before any of its sells. -/
theorem claim10_signal_order (cfg : GridConfig) (s : StrategyState)
    (price f sl tr atr : ℚ) (ts : String) :
    ((process cfg s price f sl tr atr ts).drop 1).all
        (fun g => decide (g.side = OrderSide.SELL)) = true
    ∧ (process cfg s price f sl tr atr ts).filter
        (fun g => decide (g.side = OrderSide.SELL))
      = ((s.positions.filter
            (shouldSell (detect_market_state price f sl tr)
              (gridSize cfg atr) price)).reverse).map
          (fun pos =>
            ({ side := .SELL, price := price, amount := pos.amount,
               reason := "sell", timestamp := ts } : TradeSignal))
    ∧ (∀ (ecfg : EngineConfig) (e : EngineState) (bar : Bar),
        processBar ecfg e bar
          = (process ecfg.grid e.strategy bar.close bar.ema_fast bar.ema_slow
              bar.ema_trend bar.atr_pct bar.date).foldl
              (applySignal ecfg
                (if 0 < e.cash + get_position_value e.strategy bar.close then
                  get_position_value e.strategy bar.close
                    / (e.cash + get_position_value e.strategy bar.close)
                 else 0) bar.date)
              { e with equity_curve := e.equity_curve
                  ++ [e.cash + get_position_value e.strategy bar.close] }) := by
  refine ⟨?_, ?_, ?_⟩
  · cases hb : shouldBuy (detect_market_state price f sl tr) s.last_buy_price
        price (gridSize cfg atr) with
    | true =>
      simp only [process, hb, if_true, List.singleton_append, List.drop_succ_cons,
        List.drop_zero]
      exact sell_branch_all_sell _ price ts 0
    | false =>
      simp only [process, hb, Bool.false_eq_true, if_false, List.nil_append]
      exact sell_branch_all_sell _ price ts 1
  · cases hb : shouldBuy (detect_market_state price f sl tr) s.last_buy_price
        price (gridSize cfg atr) with
    | true =>
      simp only [process, hb, if_true, List.singleton_append, List.filter_cons]
      rw [if_neg (by simp)]
      exact sell_branch_filter _ price ts
    | false =>
      simp only [process, hb, Bool.false_eq_true, if_false, List.nil_append]
      exact sell_branch_filter _ price ts
  · intro ecfg e bar
    rfl

end TradingBot
